import Mathlib

/-
Verification of the directive-posting core of the ArtTherapyGuide repository:
the faceted search / paginated listing query (directive/views.py,
ListDirectivePage), the aggregate save flow of a posting with its child
batches (CreateDirectivePage.form_valid, EditDirectivePage.form_valid),
the timestamp logic of DirectivePage.save (directive/models.py), and the
ownership-scoped delete (DeleteDirectivePage).

The embedding is a shallow one: database tables become lists of records,
the Django ORM query pipeline becomes explicit list transformations that
mirror the SQL the ORM emits (joins against many-to-many labels and child
rows multiply result rows; DISTINCT ON collapses them), and the request
handlers become pure functions from a store and a submission to a new
store plus a success flag.
-/

namespace ArtTherapy

/-! ## String utilities

Postgres ILIKE containment and to_tsvector tokenisation are modelled over
explicit character lists so that everything reduces in the kernel.
Stemming is abstracted away: a token is a maximal run of non-space
characters, lowercased. -/

/-- True when the first list occurs at the head of the second. -/
def leadsWith : List Char → List Char → Bool
  | [], _ => true
  | _ :: _, [] => false
  | a :: as, b :: bs => a == b && leadsWith as bs

/-- True when the first list occurs contiguously anywhere in the second. -/
def containsSub (needle : List Char) : List Char → Bool
  | [] => needle.isEmpty
  | c :: cs => leadsWith needle (c :: cs) || containsSub needle cs

/-- ASCII lowercasing of one character. -/
def lowerChar (c : Char) : Char :=
  if 'A' ≤ c ∧ c ≤ 'Z' then Char.ofNat (c.toNat + 32) else c

/-- The characters of a string, lowercased. -/
def lowerStr (s : String) : List Char := s.toList.map lowerChar

/-- Case-insensitive substring test: the `icontains` lookup of the ORM. -/
def icontains (needle hay : String) : Bool :=
  containsSub (lowerStr needle) (lowerStr hay)

/-- Splits a character list into maximal runs of non-space characters.
The second argument accumulates the current word in reverse. -/
def wordsAux : List Char → List Char → List (List Char)
  | [], acc => if acc.isEmpty then [] else [acc.reverse]
  | c :: cs, acc =>
    if c == ' ' then
      if acc.isEmpty then wordsAux cs [] else acc.reverse :: wordsAux cs []
    else wordsAux cs (c :: acc)

/-- The lowercased tokens of a string: the model of to_tsvector lexemes. -/
def tokens (s : String) : List String :=
  (wordsAux (lowerStr s) []).map (fun w => String.mk w)

/-! ## Data model (directive/models.py)

DirectivePage rows carry an internal id, the random url uuid, the three
header texts, the two many-to-many label id sets, the two timestamps and
the nullable author.  The four child tables (objectives, materials,
instructions, images) all have the shape id / text / owning directive id;
for images the text field stands for the stored blob reference. -/

structure Posting where
  id : Nat
  uuid : Nat
  title : String
  intro : String
  discussion : String
  populationIds : List Nat
  diagnosisIds : List Nat
  created : Nat
  updated : Nat
  postedBy : Option Nat
deriving DecidableEq

structure ChildRow where
  id : Nat
  text : String
  directiveId : Nat
deriving DecidableEq

/-- The five logical tables plus the two label tables. -/
structure Store where
  populations : List (Nat × String)
  diagnoses : List (Nat × String)
  postings : List Posting
  objectives : List ChildRow
  materials : List ChildRow
  instructions : List ChildRow
  images : List ChildRow
deriving DecidableEq

/-- Name of a label row by id. -/
def lookupName (table : List (Nat × String)) (i : Nat) : Option String :=
  (table.find? (fun e => e.1 == i)).map (fun e => e.2)

/-- The population names attached to a posting. -/
def popNames (s : Store) (p : Posting) : List String :=
  p.populationIds.filterMap (lookupName s.populations)

/-- The diagnosis names attached to a posting. -/
def diagNames (s : Store) (p : Posting) : List String :=
  p.diagnosisIds.filterMap (lookupName s.diagnoses)

/-- The texts of the child rows of one table owned by a given posting. -/
def childTexts (table : List ChildRow) (dirId : Nat) : List String :=
  (table.filter (fun r => r.directiveId == dirId)).map (fun r => r.text)

/-! ## Query/Search engine (directive/views.py, ListDirectivePage) -/

/-- directive/views.py line 15: a request parameter is applied as a filter
whenever it is neither the empty string nor absent. -/
def is_valid_queryparam (param : String) : Bool := param != ""

/-- The population names of a posting matching the population filter. -/
def matchingPops (s : Store) (p : Posting) (pat : String) : List String :=
  (popNames s p).filter (fun n => icontains pat n)

/-- The diagnosis names of a posting matching the diagnosis filter. -/
def matchingDiags (s : Store) (p : Posting) (pat : String) : List String :=
  (diagNames s p).filter (fun n => icontains pat n)

/-- A posting survives the two icontains facet filters when each active
filter is matched by at least one of its labels. -/
def passFilters (s : Store) (p : Posting) (pop diag : String) : Bool :=
  (!is_valid_queryparam pop || !(matchingPops s p pop).isEmpty) &&
  (!is_valid_queryparam diag || !(matchingDiags s p diag).isEmpty)

/-- A left outer join against a child collection: a posting with no rows
still contributes one joined row whose text coalesces to the empty
string (SearchVector wraps every column in Coalesce). -/
def withNull (l : List String) : List String := if l.isEmpty then [""] else l

/-- The document of one joined row: title, intro, one population name, one
diagnosis name, discussion, one instruction, one material, one objective
(the columns of the SearchVector at views.py lines 41 and 42). -/
def comboDoc (p : Posting) (pn dn ins mat obj : String) : List String :=
  tokens p.title ++ tokens p.intro ++ tokens pn ++ tokens dn ++
  tokens p.discussion ++ tokens ins ++ tokens mat ++ tokens obj

/-- Plain SearchQuery matching: every token of the query occurs in the
document. -/
def tsMatch (q doc : List String) : Bool := q.all (fun t => doc.contains t)

/-- The annotate/filter step of the search branch: the SQL computes one
tsvector per joined row (one population, one diagnosis, one instruction,
one material, one objective, each child slot empty when the collection
is empty), and the posting passes the filter when some joined row
matches the query.  The facet filters run before the annotate, and the
ORM reuses their many-to-many joins for the SearchVector columns: when a
facet filter is active, the label slot of every joined row is an INNER
join restricted to the filter-matching names; only an inactive filter
leaves a LEFT OUTER join over all the labels of the posting. -/
def searchMatches (s : Store) (p : Posting) (pop diag q : String) : Bool :=
  (if is_valid_queryparam pop then matchingPops s p pop
   else withNull (popNames s p)).any (fun pn =>
  (if is_valid_queryparam diag then matchingDiags s p diag
   else withNull (diagNames s p)).any (fun dn =>
  (withNull (childTexts s.instructions p.id)).any (fun ins =>
  (withNull (childTexts s.materials p.id)).any (fun mat =>
  (withNull (childTexts s.objectives p.id)).any (fun obj =>
    tsMatch (tokens q) (comboDoc p pn dn ins mat obj))))))

/-- Concatenation of the token lists of many strings. -/
def tokensOfAll (l : List String) : List String := (l.map tokens).flatten

/-- The matching predicate in the words of the specification: a single
composite document built from title, intro, discussion, all population
names, all diagnosis names and every child text, matched as a whole.
Stated only to be compared with searchMatches, which is what the code
computes. -/
def specCompositeMatch (s : Store) (p : Posting) (q : String) : Bool :=
  tsMatch (tokens q)
    (tokens p.title ++ tokens p.intro ++ tokens p.discussion ++
     tokensOfAll (popNames s p) ++ tokensOfAll (diagNames s p) ++
     tokensOfAll (childTexts s.objectives p.id) ++
     tokensOfAll (childTexts s.materials p.id) ++
     tokensOfAll (childTexts s.instructions p.id))

/-- Insertion of a posting into a list kept ordered by the given Boolean
comparison. -/
def insertSorted (le : Posting → Posting → Bool) (p : Posting) :
    List Posting → List Posting
  | [] => [p]
  | q :: qs => if le p q then p :: q :: qs else q :: insertSorted le p qs

/-- Insertion sort by the given comparison: the ORDER BY of the query. -/
def sortWith (le : Posting → Posting → Bool) (l : List Posting) : List Posting :=
  l.foldr (insertSorted le) []

/-- ORDER BY id ascending (the search branch). -/
def sortAscById (l : List Posting) : List Posting :=
  sortWith (fun a b => a.id ≤ b.id) l

/-- ORDER BY id descending (the default listing order, order_by of -id). -/
def sortDescById (l : List Posting) : List Posting :=
  sortWith (fun a b => b.id ≤ a.id) l

/-- DISTINCT ON (id): keeps the first row of each id in list order.  The
accumulator records the ids already emitted. -/
def distinctByIdAux (seen : List Nat) : List Posting → List Posting
  | [] => []
  | p :: ps =>
    if p.id ∈ seen then distinctByIdAux seen ps
    else p :: distinctByIdAux (p.id :: seen) ps

/-- DISTINCT ON (id) over a whole list. -/
def distinctById (l : List Posting) : List Posting := distinctByIdAux [] l

/-- Number of joined rows the filter joins produce for one posting in the
no-search branch: each active facet filter joins against the matching
labels, so the row count is the product of the match counts (1 for an
inactive filter).  A count of zero means the posting is filtered out. -/
def rowCount (s : Store) (p : Posting) (pop diag : String) : Nat :=
  (if is_valid_queryparam pop then (matchingPops s p pop).length else 1) *
  (if is_valid_queryparam diag then (matchingDiags s p diag).length else 1)

/-- The joined rows of the no-search branch, in list order: each posting
appears once per joined row, with no DISTINCT to collapse them. -/
def expandRows (s : Store) (pop diag : String) : List Posting → List Posting
  | [] => []
  | p :: ps => List.replicate (rowCount s p pop diag) p ++ expandRows s pop diag ps

/-- The queryset when search is empty: order_by of -id, then the two
optional icontains filters, whose many-to-many joins can multiply rows. -/
def querysetNoSearch (s : Store) (pop diag : String) : List Posting :=
  expandRows s pop diag (sortDescById s.postings)

/-- The queryset of the search branch: facet filters, the tsvector match,
ORDER BY id ascending then rank descending, DISTINCT ON (id).  After the
per-id collapse every surviving posting appears once, in ascending id
order; the rank tiebreak only chooses which joined row survives, and all
joined rows of a posting project to the same record. -/
def querysetSearch (s : Store) (pop diag q : String) : List Posting :=
  distinctById (sortAscById
    (s.postings.filter (fun p =>
      passFilters s p pop diag && searchMatches s p pop diag q)))

/-- get_queryset of ListDirectivePage. -/
def getQueryset (s : Store) (pop diag q : String) : List Posting :=
  if is_valid_queryparam q then querysetSearch s pop diag q
  else querysetNoSearch s pop diag

/-! ## Pagination (ListView with paginate_by 15) -/

def pageSize : Nat := 15

/-- ceil(count / 15), at least 1: the num_pages of a Paginator that allows
an empty first page. -/
def numPages (count : Nat) : Nat := max 1 ((count + pageSize - 1) / pageSize)

/-- The rows of one 1-based page. -/
def pageSlice (l : List Posting) (page : Nat) : List Posting :=
  (l.drop ((page - 1) * pageSize)).take pageSize

/-- The page request parameter: an integer, the literal string last, or a
string that parses as neither. -/
inductive PageParam where
  | num (n : Int)
  | lastPage
  | notAnInt
deriving DecidableEq

/-- Outcome of paginating: a page of rows, or an Http404 response. -/
inductive PageResult where
  | ok (items : List Posting)
  | http404
deriving DecidableEq

/-- paginate_queryset of ListView: a non-integer parameter other than
last raises Http404; Paginator.validate_number raises EmptyPage, hence
Http404, for a page below 1 or beyond num_pages. -/
def paginate_queryset (l : List Posting) (p : PageParam) : PageResult :=
  match p with
  | .notAnInt => .http404
  | .lastPage => .ok (pageSlice l (numPages l.length))
  | .num n =>
    if n < 1 then .http404
    else if (numPages l.length : Int) < n then .http404
    else .ok (pageSlice l n.toNat)

/-! ## Validation (ModelForm constraints from directive/models.py)

The header form of the create and edit views exposes title, intro,
population, diagnosis and discussion; title is a CharField of max_length
75, intro and discussion are required TextFields of max_length 300 and
1000, the two many-to-many fields are required.  Each child form carries
one required TextField of max_length 250; an image form carries one
required upload, modelled as a non-empty blob reference. -/

structure Header where
  title : String
  intro : String
  discussion : String
  populationIds : List Nat
  diagnosisIds : List Nat
deriving DecidableEq

structure Submission where
  header : Header
  objectives : List String
  materials : List String
  instructions : List String
  images : List String
deriving DecidableEq

/-- Header form validation: the field constraints above, plus the
ModelMultipleChoiceField check that every submitted population and
diagnosis id exists in its label table. -/
def headerValid (s : Store) (h : Header) : Bool :=
  h.title.length ≤ 75 && h.title != "" &&
  h.intro.length ≤ 300 && h.intro != "" &&
  h.discussion.length ≤ 1000 && h.discussion != "" &&
  !h.populationIds.isEmpty && !h.diagnosisIds.isEmpty &&
  h.populationIds.all (fun i => (lookupName s.populations i).isSome) &&
  h.diagnosisIds.all (fun i => (lookupName s.diagnoses i).isSome)

def textBatchValid (b : List String) : Bool :=
  b.all (fun t => t != "" && t.length ≤ 250)

def imageBatchValid (b : List String) : Bool := b.all (fun t => t != "")

def batchesValid (sub : Submission) : Bool :=
  textBatchValid sub.objectives && textBatchValid sub.materials &&
  textBatchValid sub.instructions && imageBatchValid sub.images

/-! ## Aggregate save (CreateDirectivePage / EditDirectivePage form_valid) -/

/-- Fresh values the database and uuid generator supply to one create
request. -/
structure Fresh where
  postingId : Nat
  uuid : Nat
  childId : Nat
deriving DecidableEq

/-- The row the first form.save() of the create view inserts: timestamps
from DirectivePage.save, uuid from the field default, posted_by still
null because the view assigns it only after this save. -/
def newPosting (h : Header) (freshId freshUuid now : Nat) : Posting :=
  { id := freshId, uuid := freshUuid, title := h.title, intro := h.intro,
    discussion := h.discussion, populationIds := h.populationIds,
    diagnosisIds := h.diagnosisIds, created := now, updated := now,
    postedBy := none }

/-- New child rows inserted for a batch, with consecutive fresh ids. -/
def newRows (dirId fresh : Nat) : List String → List ChildRow
  | [] => []
  | t :: ts => { id := fresh, text := t, directiveId := dirId } :: newRows dirId (fresh + 1) ts

/-- A formset save that only inserts (the create view: no existing rows). -/
def appendBatch (table : List ChildRow) (dirId : Nat) (batch : List String)
    (fresh : Nat) : List ChildRow :=
  table ++ newRows dirId fresh batch

/-- CreateDirectivePage.form_valid, together with the dispatch that runs
it only when the header form is valid.  The body executes under
transaction.atomic, which commits unless an exception escapes: the header
row inserted by the first form.save() is committed even on the
form_invalid return taken when some child batch fails validation.  On
the all-valid path the second form.save() performed by the parent
form_valid persists the posted_by assignment. -/
def createSubmit (s : Store) (user now : Nat) (f : Fresh) (sub : Submission) :
    Store × Bool :=
  if headerValid s sub.header then
    let post := newPosting sub.header f.postingId f.uuid now
    let s1 := { s with postings := s.postings ++ [post] }
    if batchesValid sub then
      let s2 := { s1 with
        objectives := appendBatch s1.objectives post.id sub.objectives f.childId,
        materials := appendBatch s1.materials post.id sub.materials f.childId,
        instructions := appendBatch s1.instructions post.id sub.instructions f.childId,
        images := appendBatch s1.images post.id sub.images f.childId }
      let s3 := { s2 with postings := s2.postings.map (fun q =>
        if q.id == post.id then { q with postedBy := some user, updated := now } else q) }
      (s3, true)
    else
      (s1, false)
  else (s, false)

/-- The header update the edit form.save() performs: the five form fields
are written, DirectivePage.save refreshes updated and leaves created,
and id, uuid and posted_by are untouched. -/
def updateHeaderFields (p : Posting) (h : Header) (now : Nat) : Posting :=
  { p with title := h.title, intro := h.intro, discussion := h.discussion,
           populationIds := h.populationIds, diagnosisIds := h.diagnosisIds,
           updated := now }

/-- Modelled from the spec: the inline formset classes
DirectiveObjectiveFormSet, DirectiveMaterialFormSet,
DirectiveInstructionFormSet and DirectiveImageFormSet are declared in
directive/forms.py, which is not among the provided sources; the spec
states that on edit existing child rows not present in the submitted
batch are removed, rows present are updated in place, and new rows are
inserted, so that the collection afterwards equals the batch.  Existing
rows are consumed in order: each batch item overwrites the text of the
next existing row, and once they run out the remaining items become new
rows with fresh ids. -/
def reconcileRows (dirId fresh : Nat) :
    List ChildRow → List String → List ChildRow
  | _, [] => []
  | [], t :: ts =>
    { id := fresh, text := t, directiveId := dirId } :: reconcileRows dirId (fresh + 1) [] ts
  | r :: rs, t :: ts => { r with text := t } :: reconcileRows dirId fresh rs ts

/-- Formset save on edit, at the level of one child table: rows of other
postings are untouched; the rows of the edited posting are replaced by
the reconciliation of the batch against them. -/
def reconcileTable (table : List ChildRow) (dirId : Nat) (batch : List String)
    (fresh : Nat) : List ChildRow :=
  table.filter (fun r => r.directiveId != dirId) ++
  reconcileRows dirId fresh (table.filter (fun r => r.directiveId == dirId)) batch

/-- EditDirectivePage.form_valid, with the lookup by uuid and the header
form validation that precede it.  As in the create view, the header
update of the first form.save() is committed even when a child batch
fails validation, because the function then returns form_invalid
normally and transaction.atomic commits. -/
def editSubmit (s : Store) (uuidArg now freshChild : Nat) (sub : Submission) :
    Store × Bool :=
  match s.postings.find? (fun p => p.uuid == uuidArg) with
  | none => (s, false)
  | some p =>
    if headerValid s sub.header then
      let s1 := { s with postings := s.postings.map (fun q =>
        if q.uuid == uuidArg then updateHeaderFields q sub.header now else q) }
      if batchesValid sub then
        ({ s1 with
           objectives := reconcileTable s1.objectives p.id sub.objectives freshChild,
           materials := reconcileTable s1.materials p.id sub.materials freshChild,
           instructions := reconcileTable s1.instructions p.id sub.instructions freshChild,
           images := reconcileTable s1.images p.id sub.images freshChild }, true)
      else (s1, false)
    else (s, false)

/-- One edit request, for iterating sequences of edits. -/
structure EditCall where
  uuidArg : Nat
  now : Nat
  freshChild : Nat
  sub : Submission

/-- A sequence of edit requests applied in order. -/
def applyEdits (s : Store) (calls : List EditCall) : Store :=
  calls.foldl (fun st c => (editSubmit st c.uuidArg c.now c.freshChild c.sub).1) s

/-! ## Deletion (DeleteDirectivePage) -/

/-- get_queryset of the delete view: only postings of the requester. -/
def deleteQueryset (s : Store) (user : Nat) : List Posting :=
  s.postings.filter (fun p => p.postedBy == some user)

/-- The delete view: the object is looked up by uuid inside the
owner-scoped queryset (a miss is a 404 that deletes nothing); deletion
removes the posting row and, through the on_delete CASCADE of the four
child foreign keys, every child row owned by it. -/
def deleteSubmit (s : Store) (uuidArg user : Nat) : Store × Bool :=
  match (deleteQueryset s user).find? (fun p => p.uuid == uuidArg) with
  | none => (s, false)
  | some p =>
    ({ s with
       postings := s.postings.filter (fun q => q.id != p.id),
       objectives := s.objectives.filter (fun r => r.directiveId != p.id),
       materials := s.materials.filter (fun r => r.directiveId != p.id),
       instructions := s.instructions.filter (fun r => r.directiveId != p.id),
       images := s.images.filter (fun r => r.directiveId != p.id) }, true)

/-! ## Timestamp lifecycle (DirectivePage.save, models.py lines 51 to 56) -/

/-- One model instance as the save method sees it. -/
structure PageRec where
  id : Option Nat
  uuid : Nat
  created : Option Nat
  updated : Option Nat
deriving DecidableEq

/-- The body of DirectivePage.save: created is assigned only when the
instance has no id yet; updated is assigned on every save. -/
def pageSave (r : PageRec) (now : Nat) : PageRec :=
  let r1 := if r.id.isNone then { r with created := some now } else r
  { r1 with updated := some now }

/-- A full persist: the save method runs, then the database insert
assigns the id when the row is new. -/
def dbPersist (r : PageRec) (now freshId : Nat) : PageRec :=
  let r1 := pageSave r now
  match r1.id with
  | none => { r1 with id := some freshId }
  | some _ => r1

/-- A sequence of persists at the given times. -/
def persistSeq (r : PageRec) (freshId : Nat) : List Nat → PageRec
  | [] => r
  | t :: ts => persistSeq (dbPersist r t freshId) freshId ts

/-! ## Concrete fixtures used by witnesses and counterexamples -/

/-- A posting whose search terms live in two different instruction rows. -/
def pTok : Posting :=
  { id := 1, uuid := 31, title := "craft", intro := "warmup", discussion := "closing",
    populationIds := [], diagnosisIds := [], created := 0, updated := 0, postedBy := none }

def storeTok : Store :=
  { populations := [], diagnoses := [], postings := [pTok], objectives := [],
    materials := [], instructions := [⟨1, "alpha", 1⟩, ⟨2, "beta", 1⟩], images := [] }

/-- A posting with two population labels both containing the word child. -/
def pDup : Posting :=
  { id := 1, uuid := 21, title := "t", intro := "i", discussion := "d",
    populationIds := [1, 2], diagnosisIds := [], created := 0, updated := 0, postedBy := none }

def storeDup : Store :=
  { populations := [(1, "children"), (2, "childhood")], diagnoses := [],
    postings := [pDup], objectives := [], materials := [], instructions := [], images := [] }

/-- Two postings, one whose population name contains a space and one
whose name does not. -/
def wsA : Posting :=
  { id := 2, uuid := 12, title := "t", intro := "i", discussion := "d",
    populationIds := [1], diagnosisIds := [], created := 0, updated := 0, postedBy := none }

def wsB : Posting :=
  { id := 1, uuid := 11, title := "t", intro := "i", discussion := "d",
    populationIds := [2], diagnosisIds := [], created := 0, updated := 0, postedBy := none }

def storeWs : Store :=
  { populations := [(1, "young adults"), (2, "children")], diagnoses := [],
    postings := [wsA, wsB], objectives := [], materials := [], instructions := [], images := [] }

def emptyStore : Store :=
  { populations := [], diagnoses := [], postings := [], objectives := [],
    materials := [], instructions := [], images := [] }

/-- A store with one population and one diagnosis label but no postings,
so that a header selecting label 1 of each passes choice validation. -/
def seedStore : Store :=
  { populations := [(1, "adults")], diagnoses := [(1, "anxiety")], postings := [],
    objectives := [], materials := [], instructions := [], images := [] }

/-- A child text one character over the 250 limit. -/
def longText : String := String.mk (List.replicate 251 'a')

def cexHeader : Header :=
  { title := "Foo", intro := "i", discussion := "d", populationIds := [1], diagnosisIds := [1] }

/-- A submission with a valid header and an invalid objectives batch. -/
def cexSubmission : Submission :=
  { header := cexHeader, objectives := [longText], materials := [],
    instructions := [], images := [] }

/-- A store holding one posting of author 1 with child rows, and one
posting of author 2, for exercising the delete view. -/
def delP1 : Posting :=
  { id := 1, uuid := 11, title := "a", intro := "i", discussion := "d",
    populationIds := [], diagnosisIds := [], created := 0, updated := 0, postedBy := some 1 }

def delP2 : Posting :=
  { id := 2, uuid := 22, title := "b", intro := "i", discussion := "d",
    populationIds := [], diagnosisIds := [], created := 0, updated := 0, postedBy := some 2 }

def storeDel : Store :=
  { populations := [], diagnoses := [], postings := [delP1, delP2],
    objectives := [⟨1, "o1", 1⟩, ⟨2, "o2", 2⟩], materials := [⟨3, "m1", 1⟩],
    instructions := [⟨4, "i1", 1⟩], images := [⟨5, "img", 1⟩] }

/-- A store with one posting of uuid 7 owning two objective rows, for
exercising edit reconciliation. -/
def edP : Posting :=
  { id := 1, uuid := 7, title := "a", intro := "i", discussion := "d",
    populationIds := [1], diagnosisIds := [1], created := 0, updated := 0, postedBy := some 1 }

def storeEd : Store :=
  { populations := [(1, "adults")], diagnoses := [(1, "anxiety")], postings := [edP],
    objectives := [⟨1, "old one", 1⟩, ⟨2, "old two", 1⟩], materials := [],
    instructions := [⟨3, "step", 1⟩], images := [] }

def edSub : Submission :=
  { header := { title := "b", intro := "j", discussion := "e",
                populationIds := [1], diagnosisIds := [1] },
    objectives := ["new one"], materials := ["glue"], instructions := ["step"],
    images := [] }

/-! ## Helper lemmas about the query pipeline -/

theorem perm_insertSorted (le : Posting → Posting → Bool) (p : Posting)
    (l : List Posting) : (insertSorted le p l).Perm (p :: l) := by
  induction l with
  | nil => exact List.Perm.refl _
  | cons q qs ih =>
    by_cases h : le p q = true
    · simp [insertSorted, h]
    · simp only [insertSorted, h, Bool.false_eq_true, if_false]
      exact (ih.cons q).trans (List.Perm.swap p q qs)

theorem perm_sortWith (le : Posting → Posting → Bool) (l : List Posting) :
    (sortWith le l).Perm l := by
  induction l with
  | nil => exact List.Perm.refl _
  | cons a l ih =>
    exact (perm_insertSorted le a (sortWith le l)).trans (ih.cons a)

theorem pairwise_insertSorted (le : Posting → Posting → Bool)
    (htot : ∀ a b, le a b = true ∨ le b a = true)
    (htrans : ∀ a b c, le a b = true → le b c = true → le a c = true)
    (p : Posting) (l : List Posting)
    (h : l.Pairwise (fun a b => le a b = true)) :
    (insertSorted le p l).Pairwise (fun a b => le a b = true) := by
  induction l with
  | nil => simp [insertSorted]
  | cons q qs ih =>
    rcases List.pairwise_cons.mp h with ⟨hq, hqs⟩
    by_cases hpq : le p q = true
    · simp only [insertSorted, hpq, if_true]
      refine List.pairwise_cons.mpr ⟨?_, h⟩
      intro x hx
      rcases List.mem_cons.mp hx with rfl | hx
      · exact hpq
      · exact htrans p q x hpq (hq x hx)
    · simp only [insertSorted, hpq, Bool.false_eq_true, if_false]
      refine List.pairwise_cons.mpr ⟨?_, ih hqs⟩
      intro x hx
      rcases List.mem_cons.mp ((perm_insertSorted le p qs).mem_iff.mp hx) with rfl | hx
      · rcases htot x q with hxq | hqx
        · exact absurd hxq hpq
        · exact hqx
      · exact hq x hx

theorem pairwise_sortWith (le : Posting → Posting → Bool)
    (htot : ∀ a b, le a b = true ∨ le b a = true)
    (htrans : ∀ a b c, le a b = true → le b c = true → le a c = true)
    (l : List Posting) :
    (sortWith le l).Pairwise (fun a b => le a b = true) := by
  induction l with
  | nil => simp [sortWith]
  | cons a l ih => exact pairwise_insertSorted le htot htrans a (sortWith le l) ih

theorem distinctByIdAux_sublist (seen : List Nat) (l : List Posting) :
    (distinctByIdAux seen l).Sublist l := by
  induction l generalizing seen with
  | nil => simp [distinctByIdAux]
  | cons p ps ih =>
    by_cases h : p.id ∈ seen
    · simp only [distinctByIdAux, h, if_true]
      exact (ih seen).cons p
    · simp only [distinctByIdAux, h, if_false]
      exact (ih (p.id :: seen)).cons₂ p

theorem distinctByIdAux_ids_nodup (seen : List Nat) (l : List Posting) :
    ((distinctByIdAux seen l).map (fun p => p.id)).Nodup ∧
    ∀ i ∈ (distinctByIdAux seen l).map (fun p => p.id), i ∉ seen := by
  induction l generalizing seen with
  | nil => simp [distinctByIdAux]
  | cons p ps ih =>
    by_cases h : p.id ∈ seen
    · simpa only [distinctByIdAux, h, if_true] using ih seen
    · obtain ⟨ihn, ihs⟩ := ih (p.id :: seen)
      simp only [distinctByIdAux, h, if_false, List.map_cons]
      constructor
      · refine List.nodup_cons.mpr ⟨?_, ihn⟩
        intro hmem
        exact (ihs _ hmem) (List.mem_cons_self _ _)
      · intro i hi
        rcases List.mem_cons.mp hi with rfl | hi
        · exact h
        · intro hseen
          exact (ihs i hi) (List.mem_cons_of_mem _ hseen)

theorem distinctByIdAux_eq_self (seen : List Nat) (l : List Posting)
    (hn : (l.map (fun p => p.id)).Nodup) (hd : ∀ p ∈ l, p.id ∉ seen) :
    distinctByIdAux seen l = l := by
  induction l generalizing seen with
  | nil => rfl
  | cons p ps ih =>
    have hps : p.id ∉ seen := hd p (List.mem_cons_self _ _)
    simp only [List.map_cons, List.nodup_cons] at hn
    simp only [distinctByIdAux, hps, if_false]
    congr 1
    refine ih (p.id :: seen) hn.2 ?_
    intro q hq hmem
    rcases List.mem_cons.mp hmem with he | hseen
    · exact hn.1 (he ▸ List.mem_map_of_mem (fun p => p.id) hq)
    · exact hd q (List.mem_cons_of_mem _ hq) hseen

theorem drop_take_comm {α : Type} (a c : Nat) (l : List α) :
    (l.take (a + c)).drop a = (l.drop a).take c := by
  induction a generalizing l with
  | zero => simp
  | succ a ih =>
    cases l with
    | nil => simp
    | cons x xs => simpa [Nat.succ_add] using ih xs

theorem slice_disjoint {α : Type} {l : List α} (h : l.Nodup) {a b k : Nat} {x : α}
    (hab : a + k ≤ b) (hx1 : x ∈ (l.drop a).take k) (hx2 : x ∈ (l.drop b).take k) :
    False := by
  have h1 : x ∈ l.take b := by
    have e1 : (l.take (a + k)).drop a = (l.drop a).take k := drop_take_comm a k l
    have hm : x ∈ l.take (a + k) := by
      rw [← e1] at hx1
      exact List.mem_of_mem_drop hx1
    have e2 : l.take (a + k) = (l.take b).take (a + k) := by
      rw [List.take_take, Nat.min_eq_left hab]
    rw [e2] at hm
    exact List.mem_of_mem_take hm
  have h2 : x ∈ l.drop b := List.mem_of_mem_take hx2
  have hsplit := List.take_append_drop b l
  rw [← hsplit] at h
  rcases List.nodup_append.mp h with ⟨-, -, hdisj⟩
  exact hdisj h1 h2

theorem mem_expandRows {s : Store} {pop diag : String} {l : List Posting}
    {q : Posting} :
    q ∈ expandRows s pop diag l ↔ q ∈ l ∧ rowCount s q pop diag ≠ 0 := by
  induction l with
  | nil => simp [expandRows]
  | cons p ps ih =>
    simp only [expandRows, List.mem_append, List.mem_replicate, ih, List.mem_cons]
    constructor
    · rintro (⟨hn, rfl⟩ | ⟨hm, hn⟩)
      · exact ⟨Or.inl rfl, hn⟩
      · exact ⟨Or.inr hm, hn⟩
    · rintro ⟨rfl | hm, hn⟩
      · exact Or.inl ⟨hn, rfl⟩
      · exact Or.inr ⟨hm, hn⟩

/-! ## Helper lemmas about the save lifecycle -/

theorem dbPersist_of_some (r : PageRec) (t fid j : Nat) (hid : r.id = some j) :
    dbPersist r t fid = { r with updated := some t } := by
  simp [dbPersist, pageSave, hid]

theorem dbPersist_first (r : PageRec) (t fid : Nat) (hid : r.id = none) :
    dbPersist r t fid =
      { r with id := some fid, created := some t, updated := some t } := by
  simp [dbPersist, pageSave, hid]

theorem persistSeq_stable (fid : Nat) (ts : List Nat) (r : PageRec) (j u : Nat)
    (hid : r.id = some j) (hu : r.updated = some u) :
    (persistSeq r fid ts).id = some j ∧
    (persistSeq r fid ts).created = r.created ∧
    (persistSeq r fid ts).updated = some (ts.getLastD u) := by
  induction ts generalizing r u with
  | nil => exact ⟨hid, rfl, by simpa [persistSeq, List.getLastD] using hu⟩
  | cons t ts ih =>
    have hstep := dbPersist_of_some r t fid j hid
    have hrec := ih (dbPersist r t fid) t (by rw [hstep]; exact hid) (by rw [hstep])
    refine ⟨hrec.1, ?_, ?_⟩
    · rw [show persistSeq r fid (t :: ts) = persistSeq (dbPersist r t fid) fid ts from rfl,
        hrec.2.1, hstep]
    · rw [show persistSeq r fid (t :: ts) = persistSeq (dbPersist r t fid) fid ts from rfl,
        hrec.2.2, List.getLastD_cons]

/-! ## Claim theorems -/

/-- Claim C5: for every Posting and every sequence of persists,
created is assigned on the first persist and never changed by a later
persist, updated is reassigned on every persist (after each prefix of
the sequence it equals the time of the most recent persist), and after
every persist updated is at least created; the hypothesis hmono is the
monotone wall clock. -/
theorem timestamps_created_once_updated_monotone (r0 : PageRec) (fid t0 : Nat)
    (ts : List Nat) (hid : r0.id = none) (hmono : ∀ t ∈ ts, t0 ≤ t) :
    ∀ pre suf : List Nat, t0 :: ts = pre ++ suf → ∀ hpre : pre ≠ [],
      (persistSeq r0 fid pre).created = some t0 ∧
      (persistSeq r0 fid pre).updated = some (pre.getLast hpre) ∧
      t0 ≤ pre.getLast hpre := by
  intro pre suf heq hpre
  cases pre with
  | nil => exact absurd rfl hpre
  | cons h1 pre' =>
    rw [List.cons_append] at heq
    obtain ⟨he, hts⟩ := List.cons.inj heq
    subst he
    have hfirst := dbPersist_first r0 t0 fid hid
    have hst := persistSeq_stable fid pre' (dbPersist r0 t0 fid) fid t0
      (by rw [hfirst]) (by rw [hfirst])
    have hrun : persistSeq r0 fid (t0 :: pre') =
        persistSeq (dbPersist r0 t0 fid) fid pre' := rfl
    have hlast : (t0 :: pre').getLast hpre = pre'.getLastD t0 :=
      List.getLast_eq_getLastD t0 pre' hpre
    refine ⟨?_, ?_, ?_⟩
    · rw [hrun, hst.2.1, hfirst]
    · rw [hrun, hst.2.2, hlast]
    · rw [hlast]
      rcases List.mem_cons.mp (List.getLastD_mem_cons pre' t0) with he | hm
      · exact Nat.le_of_eq he.symm
      · exact hmono _ (hts ▸ List.mem_append_left suf hm)

/-- Witness for C5 at a concrete instance and persist times 10, 11. -/
theorem timestamps_created_once_updated_monotone_witness :
    (persistSeq { id := none, uuid := 5, created := none, updated := none } 1
        [10, 11]).created = some 10 ∧
    (persistSeq { id := none, uuid := 5, created := none, updated := none } 1
        [10, 11]).updated = some 11 ∧
    10 ≤ 11 := by
  have h := timestamps_created_once_updated_monotone
    { id := none, uuid := 5, created := none, updated := none } 1 10 [11, 12]
    rfl (by decide) [10, 11] [12] rfl (by decide)
  exact ⟨h.1, h.2.1, h.2.2⟩

theorem editSubmit_id_uuid (s : Store) (u n fc : Nat) (sub : Submission) :
    ((editSubmit s u n fc sub).1).postings.map (fun p => (p.id, p.uuid)) =
      s.postings.map (fun p => (p.id, p.uuid)) := by
  unfold editSubmit
  cases hf : s.postings.find? (fun p => p.uuid == u) with
  | none => rfl
  | some p =>
    by_cases hh : headerValid s sub.header = true
    · have hmap : (s.postings.map (fun q =>
          if q.uuid == u then updateHeaderFields q sub.header n else q)).map
            (fun p => (p.id, p.uuid)) = s.postings.map (fun p => (p.id, p.uuid)) := by
        rw [List.map_map]
        apply List.map_congr_left
        intro q _
        by_cases hu : q.uuid = u <;> simp [hu, updateHeaderFields]
      by_cases hb : batchesValid sub = true
      · simpa [hh, hb] using hmap
      · simpa [hh, hb] using hmap
    · simp [hh]

/-- Claim C6: the external id (the uuid field) of every posting is
unchanged by any sequence of edit requests, successful or failed: after
applyEdits the association of internal id to uuid over the postings
table is exactly what it was before. -/
theorem external_id_stable_under_edits (s : Store) (calls : List EditCall) :
    ((applyEdits s calls).postings).map (fun p => (p.id, p.uuid)) =
      s.postings.map (fun p => (p.id, p.uuid)) := by
  induction calls generalizing s with
  | nil => rfl
  | cons c cs ih =>
    rw [show applyEdits s (c :: cs) =
        applyEdits ((editSubmit s c.uuidArg c.now c.freshChild c.sub).1) cs from rfl,
      ih, editSubmit_id_uuid]

/-- Claim C10: the header form rejects any title longer than 75
characters (the max_length of the CharField), so both the create and
the edit submission fail without touching the store. -/
theorem title_longer_than_75_rejected (s : Store) (user now fc uuidArg : Nat)
    (f : Fresh) (sub : Submission) (hlen : 75 < sub.header.title.length) :
    headerValid s sub.header = false ∧
    createSubmit s user now f sub = (s, false) ∧
    editSubmit s uuidArg now fc sub = (s, false) := by
  have hv : headerValid s sub.header = false := by
    simp [headerValid, decide_eq_false (Nat.not_le.mpr hlen)]
  refine ⟨hv, by simp [createSubmit, hv], ?_⟩
  unfold editSubmit
  cases hf : s.postings.find? (fun p => p.uuid == uuidArg) with
  | none => rfl
  | some p => simp [hv]

def longTitle : String := String.mk (List.replicate 76 'a')

def longTitleSub : Submission :=
  { header := { title := longTitle, intro := "i", discussion := "d",
                populationIds := [1], diagnosisIds := [1] },
    objectives := [], materials := [], instructions := [], images := [] }

set_option maxRecDepth 4000 in
/-- Witness for C10: a 76 character title is rejected by the create view. -/
theorem title_longer_than_75_rejected_witness :
    createSubmit emptyStore 1 0 ⟨1, 2, 3⟩ longTitleSub = (emptyStore, false) :=
  (title_longer_than_75_rejected emptyStore 1 0 3 0 ⟨1, 2, 3⟩ longTitleSub
    (by decide)).2.1

/-- Claim C9: a delete request succeeds only when the requester is the
author of the posting (when no posting of the requester carries the
requested uuid, the store is untouched), and a successful deletion
removes the posting row and every row of the four child collections
owned by it. -/
theorem delete_requires_author_and_cascades (s : Store) (uuidArg user : Nat) :
    ((∀ p ∈ s.postings, ¬(p.uuid = uuidArg ∧ p.postedBy = some user)) →
        deleteSubmit s uuidArg user = (s, false)) ∧
    (∀ p : Posting,
        (deleteQueryset s user).find? (fun q => q.uuid == uuidArg) = some p →
        (deleteSubmit s uuidArg user).2 = true ∧
        p.postedBy = some user ∧
        (∀ q ∈ (deleteSubmit s uuidArg user).1.postings, q.id ≠ p.id) ∧
        (∀ r ∈ (deleteSubmit s uuidArg user).1.objectives, r.directiveId ≠ p.id) ∧
        (∀ r ∈ (deleteSubmit s uuidArg user).1.materials, r.directiveId ≠ p.id) ∧
        (∀ r ∈ (deleteSubmit s uuidArg user).1.instructions, r.directiveId ≠ p.id) ∧
        (∀ r ∈ (deleteSubmit s uuidArg user).1.images, r.directiveId ≠ p.id)) := by
  constructor
  · intro hno
    have hfind : (deleteQueryset s user).find? (fun q => q.uuid == uuidArg) = none := by
      apply List.find?_eq_none.mpr
      intro q hq
      have hmem := List.mem_filter.mp hq
      have hpb : q.postedBy = some user := by simpa using hmem.2
      intro he
      exact hno q hmem.1 ⟨by simpa using he, hpb⟩
    simp [deleteSubmit, hfind]
  · intro p hfind
    have hmem : p ∈ deleteQueryset s user := List.mem_of_find?_eq_some hfind
    have hpb : p.postedBy = some user := by
      simpa using (List.mem_filter.mp hmem).2
    simp only [deleteSubmit, hfind]
    refine ⟨by trivial, hpb, ?_, ?_, ?_, ?_, ?_⟩
    · intro q hq
      simpa using (List.mem_filter.mp hq).2
    · intro r hr
      simpa using (List.mem_filter.mp hr).2
    · intro r hr
      simpa using (List.mem_filter.mp hr).2
    · intro r hr
      simpa using (List.mem_filter.mp hr).2
    · intro r hr
      simpa using (List.mem_filter.mp hr).2

/-- Witness for C9: author 1 deletes posting uuid 11 and its child rows
are gone. -/
theorem delete_requires_author_and_cascades_witness :
    (deleteSubmit storeDel 11 1).2 = true ∧
    (∀ r ∈ (deleteSubmit storeDel 11 1).1.objectives, r.directiveId ≠ 1) := by
  have h := (delete_requires_author_and_cascades storeDel 11 1).2 delP1 (by decide)
  exact ⟨h.1, h.2.2.2.1⟩

/-! ## Helper lemmas about formset reconciliation -/

theorem reconcileRows_texts (dirId fresh : Nat) (rs : List ChildRow)
    (ts : List String) :
    (reconcileRows dirId fresh rs ts).map (fun r => r.text) = ts := by
  induction ts generalizing rs fresh with
  | nil => cases rs <;> rfl
  | cons t ts ih => cases rs <;> simp [reconcileRows, ih]

theorem reconcileRows_owner (dirId fresh : Nat) (rs : List ChildRow)
    (ts : List String) (hrs : ∀ r ∈ rs, r.directiveId = dirId) :
    ∀ r ∈ reconcileRows dirId fresh rs ts, r.directiveId = dirId := by
  induction ts generalizing rs fresh with
  | nil =>
    intro r hr
    cases rs <;> simp [reconcileRows] at hr
  | cons t ts ih =>
    cases rs with
    | nil =>
      intro r hr
      rcases List.mem_cons.mp hr with rfl | hr
      · rfl
      · exact ih (fresh + 1) [] (by intro x hx; cases hx) r hr
    | cons r0 rs =>
      intro r hr
      rcases List.mem_cons.mp hr with rfl | hr
      · exact hrs r0 (List.mem_cons_self _ _)
      · exact ih fresh rs (fun x hx => hrs x (List.mem_cons_of_mem _ hx)) r hr

theorem reconcileRows_idem (dirId f f2 : Nat) (rs : List ChildRow)
    (ts : List String) :
    reconcileRows dirId f2 (reconcileRows dirId f rs ts) ts =
      reconcileRows dirId f rs ts := by
  induction ts generalizing rs f f2 with
  | nil => cases rs <;> rfl
  | cons t ts ih =>
    cases rs with
    | nil => simp [reconcileRows, ih]
    | cons r rs => simp [reconcileRows, ih]

theorem filter_ne_filter_eq_nil (table : List ChildRow) (dirId : Nat) :
    (table.filter (fun r => r.directiveId != dirId)).filter
      (fun r => r.directiveId == dirId) = [] := by
  apply List.filter_eq_nil_iff.mpr
  intro r hr
  have h := (List.mem_filter.mp hr).2
  simp only [bne_iff_ne, ne_eq] at h
  simp [h]

theorem reconcileTable_mine (table : List ChildRow) (dirId : Nat)
    (batch : List String) (fresh : Nat) :
    (reconcileTable table dirId batch fresh).filter
        (fun r => r.directiveId == dirId) =
      reconcileRows dirId fresh (table.filter (fun r => r.directiveId == dirId))
        batch := by
  unfold reconcileTable
  rw [List.filter_append, filter_ne_filter_eq_nil, List.nil_append]
  apply List.filter_eq_self.mpr
  intro r hr
  have h := reconcileRows_owner dirId fresh _ batch
    (fun x hx => by simpa using (List.mem_filter.mp hx).2) r hr
  simp [h]

theorem reconcileTable_others (table : List ChildRow) (dirId : Nat)
    (batch : List String) (fresh : Nat) :
    (reconcileTable table dirId batch fresh).filter
        (fun r => r.directiveId != dirId) =
      table.filter (fun r => r.directiveId != dirId) := by
  unfold reconcileTable
  rw [List.filter_append]
  have h1 : (table.filter (fun r => r.directiveId != dirId)).filter
      (fun r => r.directiveId != dirId) =
      table.filter (fun r => r.directiveId != dirId) :=
    List.filter_eq_self.mpr (fun r hr => (List.mem_filter.mp hr).2)
  have h2 : (reconcileRows dirId fresh
      (table.filter (fun r => r.directiveId == dirId)) batch).filter
      (fun r => r.directiveId != dirId) = [] := by
    apply List.filter_eq_nil_iff.mpr
    intro r hr
    have h := reconcileRows_owner dirId fresh _ batch
      (fun x hx => by simpa using (List.mem_filter.mp hx).2) r hr
    simp [h]
  rw [h1, h2, List.append_nil]

theorem reconcileTable_childTexts (table : List ChildRow) (dirId : Nat)
    (batch : List String) (fresh : Nat) :
    childTexts (reconcileTable table dirId batch fresh) dirId = batch := by
  unfold childTexts
  rw [reconcileTable_mine, reconcileRows_texts]

theorem reconcileTable_idem (table : List ChildRow) (dirId : Nat)
    (batch : List String) (f f2 : Nat) :
    reconcileTable (reconcileTable table dirId batch f) dirId batch f2 =
      reconcileTable table dirId batch f := by
  conv_lhs => rw [reconcileTable]
  rw [reconcileTable_others, reconcileTable_mine, reconcileRows_idem]
  rfl

theorem find?_uuid_after_update (l : List Posting) (u n : Nat) (h : Header)
    (p : Posting) (hfind : l.find? (fun q => q.uuid == u) = some p) :
    (l.map (fun q => if q.uuid == u then updateHeaderFields q h n else q)).find?
        (fun q => q.uuid == u) = some (updateHeaderFields p h n) := by
  induction l with
  | nil => simp at hfind
  | cons a l ih =>
    by_cases ha : (a.uuid == u) = true
    · simp only [List.find?_cons, ha] at hfind
      obtain rfl : a = p := Option.some.inj hfind
      have ha2 : ((updateHeaderFields a h n).uuid == u) = true := ha
      simp only [List.map_cons, if_pos ha, List.find?_cons, ha2]
    · have ha' : (a.uuid == u) = false := by simpa using ha
      simp only [List.find?_cons, ha'] at hfind
      simp only [List.map_cons, ha', Bool.false_eq_true, if_false,
        List.find?_cons]
      exact ih hfind

theorem editSubmit_success_eq (s : Store) (uuidArg now fc : Nat)
    (sub : Submission) (p : Posting)
    (hfind : s.postings.find? (fun q => q.uuid == uuidArg) = some p)
    (hh : headerValid s sub.header = true) (hb : batchesValid sub = true) :
    editSubmit s uuidArg now fc sub =
      ({ s with
         postings := s.postings.map (fun q =>
           if q.uuid == uuidArg then updateHeaderFields q sub.header now else q),
         objectives := reconcileTable s.objectives p.id sub.objectives fc,
         materials := reconcileTable s.materials p.id sub.materials fc,
         instructions := reconcileTable s.instructions p.id sub.instructions fc,
         images := reconcileTable s.images p.id sub.images fc }, true) := by
  simp only [editSubmit, hfind, hh, hb, if_true]

/-- Claim C7: after a successful edit the four child collections of the
posting equal the submitted batches, and submitting the same batches a
second time leaves every child table unchanged.  The reconciliation
semantics of the formsets is modelled from the spec because
directive/forms.py is not among the provided sources. -/
theorem edit_reconciliation_exact_and_idempotent (s : Store)
    (uuidArg now now2 fc fc2 : Nat) (sub : Submission) (p : Posting)
    (hfind : s.postings.find? (fun q => q.uuid == uuidArg) = some p)
    (hh : headerValid s sub.header = true) (hb : batchesValid sub = true) :
    (editSubmit s uuidArg now fc sub).2 = true ∧
    childTexts ((editSubmit s uuidArg now fc sub).1).objectives p.id = sub.objectives ∧
    childTexts ((editSubmit s uuidArg now fc sub).1).materials p.id = sub.materials ∧
    childTexts ((editSubmit s uuidArg now fc sub).1).instructions p.id = sub.instructions ∧
    childTexts ((editSubmit s uuidArg now fc sub).1).images p.id = sub.images ∧
    ((editSubmit ((editSubmit s uuidArg now fc sub).1) uuidArg now2 fc2 sub).1).objectives
      = ((editSubmit s uuidArg now fc sub).1).objectives ∧
    ((editSubmit ((editSubmit s uuidArg now fc sub).1) uuidArg now2 fc2 sub).1).materials
      = ((editSubmit s uuidArg now fc sub).1).materials ∧
    ((editSubmit ((editSubmit s uuidArg now fc sub).1) uuidArg now2 fc2 sub).1).instructions
      = ((editSubmit s uuidArg now fc sub).1).instructions ∧
    ((editSubmit ((editSubmit s uuidArg now fc sub).1) uuidArg now2 fc2 sub).1).images
      = ((editSubmit s uuidArg now fc sub).1).images := by
  have hstep1 := editSubmit_success_eq s uuidArg now fc sub p hfind hh hb
  have hfind2 := find?_uuid_after_update s.postings uuidArg now sub.header p hfind
  have hstep2 := editSubmit_success_eq ((editSubmit s uuidArg now fc sub).1)
    uuidArg now2 fc2 sub (updateHeaderFields p sub.header now)
    (by rw [hstep1]; exact hfind2) (by rw [hstep1]; exact hh) hb
  refine ⟨?_, ?_, ?_, ?_, ?_, ?_, ?_, ?_, ?_⟩
  · rw [hstep1]
  · rw [hstep1]
    exact reconcileTable_childTexts s.objectives p.id sub.objectives fc
  · rw [hstep1]
    exact reconcileTable_childTexts s.materials p.id sub.materials fc
  · rw [hstep1]
    exact reconcileTable_childTexts s.instructions p.id sub.instructions fc
  · rw [hstep1]
    exact reconcileTable_childTexts s.images p.id sub.images fc
  · rw [hstep2, hstep1]
    exact reconcileTable_idem s.objectives p.id sub.objectives fc fc2
  · rw [hstep2, hstep1]
    exact reconcileTable_idem s.materials p.id sub.materials fc fc2
  · rw [hstep2, hstep1]
    exact reconcileTable_idem s.instructions p.id sub.instructions fc fc2
  · rw [hstep2, hstep1]
    exact reconcileTable_idem s.images p.id sub.images fc fc2

/-- Witness for C7: editing the fixture posting with a one-objective
batch leaves exactly that objective text. -/
theorem edit_reconciliation_exact_and_idempotent_witness :
    childTexts ((editSubmit storeEd 7 5 100 edSub).1).objectives 1 =
      edSub.objectives :=
  (edit_reconciliation_exact_and_idempotent storeEd 7 5 9 100 101 edSub edP
    (by decide) (by decide) (by decide)).2.1

/-- Counterexample to C2 as stated: with empty search text, the
population filter child joins against the two labels of the fixture
posting and the posting appears twice on the first result page. -/
theorem facet_filter_duplicates_posting_within_page :
    ¬ (((pageSlice (getQueryset storeDup "child" "" "") 1).map
        (fun p => p.id)).Nodup) := by decide

/-- Claim C2 (amended): for every listing query with a non-empty search
text, each posting id appears at most once in the whole result, at most
once within any page, and never on two distinct pages. -/
theorem search_results_never_duplicate_postings (s : Store)
    (pop diag q : String) (hq : is_valid_queryparam q = true) :
    ((getQueryset s pop diag q).map (fun p => p.id)).Nodup ∧
    (∀ n : Nat, ((pageSlice (getQueryset s pop diag q) n).map
        (fun p => p.id)).Nodup) ∧
    (∀ m n : Nat, 1 ≤ m → 1 ≤ n → m ≠ n → ∀ i : Nat,
        i ∈ (pageSlice (getQueryset s pop diag q) m).map (fun p => p.id) →
        i ∈ (pageSlice (getQueryset s pop diag q) n).map (fun p => p.id) →
        False) := by
  have hnd : ((getQueryset s pop diag q).map (fun p => p.id)).Nodup := by
    simp only [getQueryset, hq, if_true]
    exact (distinctByIdAux_ids_nodup [] _).1
  have hmap : ∀ k : Nat, (pageSlice (getQueryset s pop diag q) k).map
        (fun p => p.id) =
      (((getQueryset s pop diag q).map (fun p => p.id)).drop
        ((k - 1) * pageSize)).take pageSize := by
    intro k
    simp [pageSlice, List.map_take, List.map_drop]
  refine ⟨hnd, ?_, ?_⟩
  · intro n
    rw [hmap n]
    exact hnd.sublist ((List.take_sublist _ _).trans (List.drop_sublist _ _))
  · intro m n hm hn hmn i hi1 hi2
    rw [hmap m] at hi1
    rw [hmap n] at hi2
    rcases Nat.lt_or_ge m n with hlt | hge
    · have hb : (m - 1) * pageSize + pageSize ≤ (n - 1) * pageSize := by
        simp only [pageSize]
        omega
      exact slice_disjoint hnd hb hi1 hi2
    · have hlt : n < m := Nat.lt_of_le_of_ne hge (fun e => hmn e.symm)
      have hb : (n - 1) * pageSize + pageSize ≤ (m - 1) * pageSize := by
        simp only [pageSize]
        omega
      exact slice_disjoint hnd hb hi2 hi1

/-- Witness for C2: a non-empty search over the fixture store yields
duplicate-free ids. -/
theorem search_results_never_duplicate_postings_witness :
    ((getQueryset storeTok "" "" "alpha").map (fun p => p.id)).Nodup :=
  (search_results_never_duplicate_postings storeTok "" "" "alpha" (by decide)).1

/-- Counterexample to C3 as stated: page 2 of an empty result list is a
positive-integer page beyond the last available page, and the code
answers Http404, not an empty ok page. -/
theorem page_beyond_last_is_http404 :
    (1 : Int) ≤ 2 ∧
    numPages (getQueryset emptyStore "" "" "").length < 2 ∧
    paginate_queryset (getQueryset emptyStore "" "" "") (PageParam.num 2) ≠
      PageResult.ok [] ∧
    paginate_queryset (getQueryset emptyStore "" "" "") (PageParam.num 2) =
      PageResult.http404 := by decide

theorem pageSlice_length_le (l : List Posting) (k : Nat) :
    (pageSlice l k).length ≤ 15 := by
  unfold pageSlice
  rw [List.length_take]
  exact Nat.min_le_left _ _

/-- Claim C3 (amended): every returned page holds at most 15 postings;
a page number below 1 or beyond the last page is answered with Http404,
as is a parameter that is not an integer. -/
theorem page_size_bound_and_page_errors (s : Store) (pop diag q : String)
    (pp : PageParam) :
    (∀ items : List Posting,
        paginate_queryset (getQueryset s pop diag q) pp = PageResult.ok items →
        items.length ≤ 15) ∧
    (∀ n : Int, pp = PageParam.num n →
        (n < 1 ∨ (numPages (getQueryset s pop diag q).length : Int) < n) →
        paginate_queryset (getQueryset s pop diag q) pp = PageResult.http404) ∧
    (pp = PageParam.notAnInt →
        paginate_queryset (getQueryset s pop diag q) pp = PageResult.http404) := by
  refine ⟨?_, ?_, ?_⟩
  · intro items hok
    cases pp with
    | notAnInt => simp [paginate_queryset] at hok
    | lastPage =>
      simp only [paginate_queryset, PageResult.ok.injEq] at hok
      rw [← hok]
      exact pageSlice_length_le _ _
    | num n =>
      by_cases h1 : n < 1
      · simp [paginate_queryset, h1] at hok
      · by_cases h2 : (numPages (getQueryset s pop diag q).length : Int) < n
        · simp [paginate_queryset, h1, h2] at hok
        · simp only [paginate_queryset, h1, h2, if_false,
            PageResult.ok.injEq] at hok
          rw [← hok]
          exact pageSlice_length_le _ _
  · rintro n rfl hcond
    rcases hcond with h1 | h2
    · simp [paginate_queryset, h1]
    · by_cases h1 : n < 1
      · simp [paginate_queryset, h1]
      · simp [paginate_queryset, h1, h2]
  · rintro rfl
    rfl

/-- Witness for C3: page 2 of the empty listing is an Http404. -/
theorem page_size_bound_and_page_errors_witness :
    paginate_queryset (getQueryset emptyStore "" "" "") (PageParam.num 2) =
      PageResult.http404 :=
  (page_size_bound_and_page_errors emptyStore "" "" "" (PageParam.num 2)).2.1 2
    rfl (by decide)

/-- Counterexample to C4 as stated: the fixture posting matches the
spec-worded composite document for the two-token query (one token per
instruction row), yet the code excludes it, because each joined row
carries only one instruction. -/
theorem composite_document_match_differs_from_code :
    specCompositeMatch storeTok pTok "alpha beta" = true ∧
    passFilters storeTok pTok "" "" = true ∧
    pTok ∈ storeTok.postings ∧
    pTok ∉ getQueryset storeTok "" "" "alpha beta" := by decide

/-- Claim C4 (amended): with a non-empty search text the result set is
exactly the postings that pass the facet filters and whose joined rows
match all query tokens (searchMatches: one population name, one
diagnosis name, one objective, one material and one instruction per
row, the label slots restricted to the filter-matching names when the
corresponding facet filter is active because the ORM reuses the filter
joins for the SearchVector), each listed once, in ascending id order. -/
theorem search_branch_characterization (s : Store) (pop diag q : String)
    (hq : is_valid_queryparam q = true)
    (hwf : (s.postings.map (fun p => p.id)).Nodup) :
    (∀ p : Posting, p ∈ getQueryset s pop diag q ↔
        p ∈ s.postings ∧ passFilters s p pop diag = true ∧
          searchMatches s p pop diag q = true) ∧
    (getQueryset s pop diag q).Pairwise (fun a b => a.id ≤ b.id) ∧
    ((getQueryset s pop diag q).map (fun p => p.id)).Nodup := by
  have hgq : getQueryset s pop diag q = querysetSearch s pop diag q := by
    simp [getQueryset, hq]
  have hfl_nodup : ((s.postings.filter (fun p =>
      passFilters s p pop diag && searchMatches s p pop diag q)).map
        (fun p => p.id)).Nodup :=
    hwf.sublist ((List.filter_sublist _).map _)
  have hperm : (sortAscById (s.postings.filter (fun p =>
      passFilters s p pop diag && searchMatches s p pop diag q))).Perm
      (s.postings.filter (fun p =>
        passFilters s p pop diag && searchMatches s p pop diag q)) :=
    perm_sortWith _ _
  have hsort_nodup : ((sortAscById (s.postings.filter (fun p =>
      passFilters s p pop diag && searchMatches s p pop diag q))).map
        (fun p => p.id)).Nodup :=
    ((hperm.map _).nodup_iff).mpr hfl_nodup
  have hdist : querysetSearch s pop diag q = sortAscById (s.postings.filter
      (fun p => passFilters s p pop diag && searchMatches s p pop diag q)) := by
    unfold querysetSearch distinctById
    exact distinctByIdAux_eq_self [] _ hsort_nodup (by simp)
  refine ⟨?_, ?_, ?_⟩
  · intro p
    rw [hgq, hdist, hperm.mem_iff, List.mem_filter, Bool.and_eq_true]
  · rw [hgq, hdist]
    have hpw := pairwise_sortWith (fun a b => decide (a.id ≤ b.id))
      (fun a b => by
        rcases Nat.le_total a.id b.id with h | h
        · exact Or.inl (decide_eq_true h)
        · exact Or.inr (decide_eq_true h))
      (fun a b c hab hbc => decide_eq_true
        (Nat.le_trans (of_decide_eq_true hab) (of_decide_eq_true hbc)))
      (s.postings.filter (fun p =>
        passFilters s p pop diag && searchMatches s p pop diag q))
    exact hpw.imp (fun h => of_decide_eq_true h)
  · rw [hgq, hdist]
    exact hsort_nodup

/-- Witness for C4: the fixture posting is returned for a one-token
query found in one of its instruction rows. -/
theorem search_branch_characterization_witness :
    pTok ∈ getQueryset storeTok "" "" "alpha" :=
  ((search_branch_characterization storeTok "" "" "alpha" (by decide)
    (by decide)).1 pTok).mpr (by decide)

/-- Counterexample to C8 as stated: a whitespace-only population filter
is not treated as absent; it excludes the posting whose label has no
space while the empty filter keeps it. -/
theorem whitespace_filter_is_applied_not_ignored :
    wsB ∈ getQueryset storeWs "" "" "" ∧
    wsB ∉ getQueryset storeWs " " "" "" ∧
    is_valid_queryparam " " = true := by decide

/-- Claim C8 (amended): only an empty (or missing) filter value is
treated as no filter; any non-empty value, whitespace-only included, is
applied as a literal case-insensitive substring restriction on the
label names; two active filters compose with logical AND. -/
theorem facet_filter_semantics (s : Store) (pop diag : String) (p : Posting) :
    (p ∈ getQueryset s pop diag "" ↔
      p ∈ s.postings ∧
      (is_valid_queryparam pop = true →
        ∃ nm ∈ popNames s p, icontains pop nm = true) ∧
      (is_valid_queryparam diag = true →
        ∃ nm ∈ diagNames s p, icontains diag nm = true)) ∧
    is_valid_queryparam "" = false ∧
    (∀ f : String, f ≠ "" → is_valid_queryparam f = true) := by
  have hempty : is_valid_queryparam "" = false := by decide
  have hlen : ∀ (l : List String) (pr : String → Bool),
      (l.filter pr).length ≠ 0 ↔ ∃ nm ∈ l, pr nm = true := by
    intro l pr
    rw [Ne, List.length_eq_zero, List.filter_eq_nil_iff]
    push_neg
    simp
  refine ⟨?_, hempty, ?_⟩
  · have hq0 : getQueryset s pop diag "" = querysetNoSearch s pop diag := by
      simp [getQueryset, hempty]
    have hrc : rowCount s p pop diag ≠ 0 ↔
        ((is_valid_queryparam pop = true →
          ∃ nm ∈ popNames s p, icontains pop nm = true) ∧
         (is_valid_queryparam diag = true →
          ∃ nm ∈ diagNames s p, icontains diag nm = true)) := by
      unfold rowCount
      rw [Nat.mul_ne_zero_iff]
      apply and_congr
      · by_cases hv : is_valid_queryparam pop = true
        · simp only [hv, if_true, true_implies]
          exact hlen (popNames s p) (fun n => icontains pop n)
        · have hv' : is_valid_queryparam pop = false := by simpa using hv
          simp [hv']
      · by_cases hv : is_valid_queryparam diag = true
        · simp only [hv, if_true, true_implies]
          exact hlen (diagNames s p) (fun n => icontains diag n)
        · have hv' : is_valid_queryparam diag = false := by simpa using hv
          simp [hv']
    rw [hq0]
    unfold querysetNoSearch sortDescById
    rw [mem_expandRows, (perm_sortWith _ _).mem_iff, hrc]
  · intro f hf
    simp [is_valid_queryparam, hf]

/-- Witness for C8: a single-space filter value counts as active. -/
theorem facet_filter_semantics_witness : is_valid_queryparam " " = true :=
  (facet_filter_semantics emptyStore "" "" pDup).2.2 " " (by decide)

set_option maxRecDepth 8000 in
/-- Claim C1 (code bug): a create submission with a valid header and an
invalid objectives batch still persists the header row, because
form.save() runs before the formsets are validated and the form_invalid
return commits the transaction.atomic block; an edit likewise persists
the header update.  The claimed all-or-nothing behaviour fails. -/
theorem create_commits_header_row_when_batch_invalid :
    headerValid seedStore cexSubmission.header = true ∧
    headerValid storeEd cexSubmission.header = true ∧
    batchesValid cexSubmission = false ∧
    createSubmit seedStore 9 100 ⟨1, 42, 1⟩ cexSubmission =
      ({ seedStore with postings := [newPosting cexHeader 1 42 100] }, false) ∧
    ({ seedStore with postings := [newPosting cexHeader 1 42 100] } : Store) ≠
      seedStore ∧
    (editSubmit storeEd 7 5 9 cexSubmission).2 = false ∧
    (editSubmit storeEd 7 5 9 cexSubmission).1.postings =
      [updateHeaderFields edP cexHeader 5] ∧
    (editSubmit storeEd 7 5 9 cexSubmission).1 ≠ storeEd := by decide

end ArtTherapy
